import Mathlib

/-!
Shallow embedding of the auction/settlement core of the fish-auction
marketplace, taken from `src/lib/auction-utils.ts` and the money utilities
module (`lib/money-utils`).

Modelling conventions:
* JavaScript `number` values that carry money or bid amounts are embedded as
  exact rationals `ℚ` (the float literal `0.06` is read as the exact rational
  `6/100`); `Number.isInteger` becomes "denominator = 1".
* `Math.round x` is `⌊x + 1/2⌋` (round half toward positive infinity), the
  behaviour of JavaScript `Math.round` on finite numbers.
* Instants (`Date`) are embedded as integers (milliseconds since epoch), and
  the implicit `new Date()` clock read becomes an explicit `now : ℤ` argument.
* `throw new Error e` becomes an `Except`/error-carrying return value.
-/

namespace FishAuction

/-- JavaScript `Math.round`: floor of x + 1/2 (half rounds toward +infinity). -/
def jsRound (x : ℚ) : ℤ := ⌊x + 1/2⌋

/-- JavaScript `Number.isInteger` on an exact rational. -/
def jsIsInteger (x : ℚ) : Bool := x.den = 1

/-! ### Money utilities (money-utils module) -/

/-- `pesosTocentavos(pesos) = Math.round(pesos * 100)`. -/
def pesosTocentavos (pesos : ℚ) : ℚ := (jsRound (pesos * 100) : ℚ)

/-- `centavosToPesos(centavos) = centavos / 100`. -/
def centavosToPesos (centavos : ℚ) : ℚ := centavos / 100

/-- `calculateCommission(gross) = Math.round(gross * 0.06)` (6% commission). -/
def calculateCommission (grossAmountCents : ℚ) : ℚ :=
  (jsRound (grossAmountCents * (6/100)) : ℚ)

/-- `calculateLaborFee()` returns the flat 2500-centavo labor fee. -/
def calculateLaborFee : ℚ := 2500

/-- Result shape of `calculateSettlement`. -/
structure SettlementBreakdown where
  grossAmount : ℚ
  commissionCents : ℚ
  laborFeeCents : ℚ
  netToSupplierCents : ℚ
  commissionRate : ℚ
  laborFeeFixed : ℚ
deriving DecidableEq, Repr

/-- `calculateSettlement(winningBidCents)`: commission = round(gross*0.06),
labor fee = 2500, net = gross - commission - laborFee, with the rate and the
flat-fee metadata echoed back. -/
def calculateSettlement (winningBidCents : ℚ) : SettlementBreakdown :=
  let commissionCents : ℚ := (jsRound (winningBidCents * (6/100)) : ℚ)
  let laborFeeCents : ℚ := 2500
  let netToSupplierCents := winningBidCents - commissionCents - laborFeeCents
  { grossAmount := winningBidCents
    commissionCents := commissionCents
    laborFeeCents := laborFeeCents
    netToSupplierCents := netToSupplierCents
    commissionRate := 6/100
    laborFeeFixed := 25 }

/-- Characters removed by `parseMoneyString`'s cleaning regex `[₱,\s]`
(the peso sign, commas and whitespace). `Char.isWhitespace` stands in for
the JavaScript `\s` class. -/
def isStrippedMoneyChar (c : Char) : Bool :=
  c = '₱' || c = ',' || c.isWhitespace

/-- The cleaning step `moneyString.replace(/[₱,\s]/g, '')`. -/
def cleanMoney (s : String) : String :=
  String.mk (s.data.filter (fun c => !isStrippedMoneyChar c))

/-- Digit list to natural number, most significant digit first. -/
def digitsToNat (ds : List Char) : ℕ :=
  ds.foldl (fun a c => 10 * a + (c.toNat - 48)) 0

/-- Pieces of a decimal literal recognized by `parseFloat`: sign, value of
the integer-part digits, value and count of the fractional-part digits, and
the exponent. -/
structure DecimalParts where
  negative : Bool
  intPart : ℕ
  fracPart : ℕ
  fracLen : ℕ
  exponent : ℤ
deriving DecidableEq, Repr

/-- Lexing stage of JavaScript `parseFloat` on whitespace-free input (the
caller has already stripped all whitespace): an optional sign, then the
longest prefix of the form `digits [. digits]` or `. digits`, then an
optional well-formed exponent part; trailing garbage is ignored. Returns
`none` exactly when there is no numeric prefix (`parseFloat` yields NaN).
Non-finite literals (`Infinity`) are outside this rational model. -/
def parseDecimalParts (s : String) : Option DecimalParts :=
  let signAndRest : Bool × List Char :=
    match s.data with
    | '-' :: r => (true, r)
    | '+' :: r => (false, r)
    | r => (false, r)
  let intSpan := signAndRest.2.span Char.isDigit
  let fracSpan : List Char × List Char :=
    match intSpan.2 with
    | '.' :: r => r.span Char.isDigit
    | r => ([], r)
  if intSpan.1.isEmpty ∧ fracSpan.1.isEmpty then none
  else
    let exponent : ℤ :=
      match fracSpan.2 with
      | 'e' :: r | 'E' :: r =>
        match r with
        | '+' :: r2 =>
          let ds := (r2.span Char.isDigit).1
          if ds.isEmpty then 0 else (digitsToNat ds : ℤ)
        | '-' :: r2 =>
          let ds := (r2.span Char.isDigit).1
          if ds.isEmpty then 0 else -(digitsToNat ds : ℤ)
        | r2 =>
          let ds := (r2.span Char.isDigit).1
          if ds.isEmpty then 0 else (digitsToNat ds : ℤ)
      | _ => 0
    some { negative := signAndRest.1
           intPart := digitsToNat intSpan.1
           fracPart := digitsToNat fracSpan.1
           fracLen := fracSpan.1.length
           exponent := exponent }

/-- Numeric value of a recognized decimal literal. -/
def decimalValue (p : DecimalParts) : ℚ :=
  (if p.negative then -1 else 1) *
    ((p.intPart : ℚ) + (p.fracPart : ℚ) / (10 : ℚ) ^ p.fracLen) * (10 : ℚ) ^ p.exponent

/-- JavaScript `parseFloat`, as lexing plus valuation. -/
def jsParseFloat (s : String) : Option ℚ :=
  (parseDecimalParts s).map decimalValue

/-- `parseMoneyString(moneyString)`: clean with the `[₱,\s]` regex, parse the
result with `parseFloat`, throw "Invalid money format" on NaN, otherwise
return `pesosTocentavos` of the parsed value. -/
def parseMoneyString (moneyString : String) : Except String ℚ :=
  match jsParseFloat (cleanMoney moneyString) with
  | none => .error "Invalid money format"
  | some pesos => .ok (pesosTocentavos pesos)

/-! ### Auction state engine (`src/lib/auction-utils.ts`) -/

/-- The TypeScript union type `'open' | 'closed'`. -/
inductive AuctionStatus where
  | «open» : AuctionStatus
  | closed : AuctionStatus
deriving DecidableEq, Repr

/-- The `Bid` interface (the optional `isWinning` display flag is omitted:
no core operation reads it). -/
structure Bid where
  id : String
  lotId : String
  buyerId : String
  bidAmountCents : ℚ
  timestamp : ℤ
deriving DecidableEq, Repr

/-- The `AuctionState` interface. -/
structure AuctionState where
  lotId : String
  status : AuctionStatus
  startTime : ℤ
  endTime : ℤ
  minimumBidCents : ℚ
  bidIncrementCents : ℚ
  currentHighestBidCents : ℚ
  totalBids : ℕ
  bids : List Bid
deriving DecidableEq, Repr

/-- `isAuctionActive(auction)`: status is open and `now` lies in
`[startTime, endTime]` (both comparisons in the source are non-strict). -/
def isAuctionActive (now : ℤ) (auction : AuctionState) : Bool :=
  auction.status = AuctionStatus.«open» ∧
    auction.startTime ≤ now ∧ now ≤ auction.endTime

/-- Rejection reasons produced by `validateBid`, carrying the amount that the
corresponding error message interpolates (the configured minimum for the
below-minimum message, the required minimum = current high + increment for
the below-increment message). -/
inductive RejectionReason where
  | notActive : RejectionReason
  | belowMinimum (minimumBidCents : ℚ) : RejectionReason
  | belowIncrement (requiredMinimumCents : ℚ) : RejectionReason
  | invalidAmount : RejectionReason
deriving DecidableEq, Repr

/-- `validateBid(auction, bidAmountCents)`: four checks in source order;
`none` is the `{success: true}` result, `some r` the first failing check's
rejection. -/
def validateBid (now : ℤ) (auction : AuctionState) (bidAmountCents : ℚ) :
    Option RejectionReason :=
  if isAuctionActive now auction = false then
    some RejectionReason.notActive
  else if bidAmountCents < auction.minimumBidCents then
    some (RejectionReason.belowMinimum auction.minimumBidCents)
  else if bidAmountCents < auction.currentHighestBidCents + auction.bidIncrementCents then
    some (RejectionReason.belowIncrement
      (auction.currentHighestBidCents + auction.bidIncrementCents))
  else if jsIsInteger bidAmountCents = false ∨ bidAmountCents ≤ 0 then
    some RejectionReason.invalidAmount
  else
    none

/-- `getNextMinimumBid(auction)`. -/
def getNextMinimumBid (auction : AuctionState) : ℚ :=
  if auction.currentHighestBidCents = 0 then auction.minimumBidCents
  else auction.currentHighestBidCents + auction.bidIncrementCents

/-- The sort comparator of `getWinningBid` as a boolean "comes no later than"
relation: `cmp(a,b) = (amounts differ ? b.amount - a.amount : a.ts - b.ts)`,
so `a` sorts no later than `b` iff `cmp(a,b) ≤ 0`. -/
def bidBefore (a b : Bid) : Bool :=
  if a.bidAmountCents = b.bidAmountCents then a.timestamp ≤ b.timestamp
  else b.bidAmountCents < a.bidAmountCents

/-- `getWinningBid(auction)`: null when there are no bids, otherwise the head
of the bid list sorted by amount descending, ties by timestamp ascending. -/
def getWinningBid (auction : AuctionState) : Option Bid :=
  if auction.bids.length = 0 then none
  else (auction.bids.mergeSort bidBefore).head?

/-- Result shape of `closeAuction`. -/
structure ClosureResult where
  success : Bool
  winningBid : Option Bid
  finalStatus : AuctionStatus
  totalBids : ℕ
  error : Option String
deriving DecidableEq, Repr

/-- `closeAuction(auction)`: error result when already closed, otherwise a
success result carrying the winning bid (possibly null), final status
`closed`, and the bid count. -/
def closeAuction (auction : AuctionState) : ClosureResult :=
  if auction.status = AuctionStatus.closed then
    { success := false
      winningBid := none
      finalStatus := AuctionStatus.closed
      totalBids := auction.totalBids
      error := some "Auction is already closed" }
  else
    { success := true
      winningBid := getWinningBid auction
      finalStatus := AuctionStatus.closed
      totalBids := auction.bids.length
      error := none }

/-- `addBidToAuction(auction, bid)`: validates `bid.bidAmountCents`, throws
the validation error on failure; on success returns the spread-updated state
with the bid appended, `currentHighestBidCents = max(old, bid.amount)` and
`totalBids = updatedBids.length`. -/
def addBidToAuction (now : ℤ) (auction : AuctionState) (bid : Bid) :
    Except RejectionReason AuctionState :=
  match validateBid now auction bid.bidAmountCents with
  | some reason => .error reason
  | none =>
    let updatedBids := auction.bids ++ [bid]
    let newHighestBid := max auction.currentHighestBidCents bid.bidAmountCents
    .ok { auction with
          bids := updatedBids
          currentHighestBidCents := newHighestBid
          totalBids := updatedBids.length }

/-- Maximum `bidAmountCents` among the bids of a list, 0 for the empty list
(the `AuctionState` invariant's baseline for an auction with no bids). -/
def maxBidAmount : List Bid → ℚ
  | [] => 0
  | b :: bs => bs.foldl (fun m c => max m c.bidAmountCents) b.bidAmountCents

/-- The active auction of the spec's concrete scenario: minimum bid 10000,
increment 500, current highest 12000, window [0, 100]. -/
def demoAuction : AuctionState :=
  { lotId := "lot-demo"
    status := AuctionStatus.«open»
    startTime := 0
    endTime := 100
    minimumBidCents := 10000
    bidIncrementCents := 500
    currentHighestBidCents := 12000
    totalBids := 1
    bids := [] }

/-- An open auction whose `totalBids` field (5) disagrees with its empty bid
list, exercising `addBidToAuction` outside the data-model invariant. -/
def skewedAuction : AuctionState :=
  { lotId := "lot-skewed"
    status := AuctionStatus.«open»
    startTime := 0
    endTime := 100
    minimumBidCents := 100
    bidIncrementCents := 50
    currentHighestBidCents := 0
    totalBids := 5
    bids := [] }

/-- A bid of 100 centavos at time 1, valid for `skewedAuction` at time 50. -/
def skewedBid : Bid :=
  { id := "bid-1", lotId := "lot-skewed", buyerId := "buyer-1"
    bidAmountCents := 100, timestamp := 1 }

/-- A valid bid of 12500 centavos for `demoAuction` at time 50. -/
def demoBid : Bid :=
  { id := "bid-demo", lotId := "lot-demo", buyerId := "buyer-demo"
    bidAmountCents := 12500, timestamp := 10 }

/-- An open auction with no bids satisfying both `AuctionState` invariants
(`currentHighestBidCents` = 0, `totalBids` = 0). -/
def freshAuction : AuctionState :=
  { lotId := "lot-fresh"
    status := AuctionStatus.«open»
    startTime := 0
    endTime := 100
    minimumBidCents := 100
    bidIncrementCents := 50
    currentHighestBidCents := 0
    totalBids := 0
    bids := [] }

/-- The state `addBidToAuction` returns for `freshAuction` and `skewedBid`. -/
def freshResult : AuctionState :=
  { freshAuction with
    bids := [skewedBid]
    currentHighestBidCents := 100
    totalBids := 1 }

/-- A bid of 15000 at time 1 (the earlier of two equal-amount bids). -/
def tieBidEarly : Bid :=
  { id := "bid-t1", lotId := "lot-tie", buyerId := "buyer-a"
    bidAmountCents := 15000, timestamp := 1 }

/-- A bid of 15000 at time 2 (the later of two equal-amount bids). -/
def tieBidLate : Bid :=
  { id := "bid-t2", lotId := "lot-tie", buyerId := "buyer-b"
    bidAmountCents := 15000, timestamp := 2 }

/-- An auction holding the two tied bids with the later one inserted first. -/
def tieAuctionA : AuctionState :=
  { lotId := "lot-tie"
    status := AuctionStatus.«open»
    startTime := 0
    endTime := 100
    minimumBidCents := 10000
    bidIncrementCents := 500
    currentHighestBidCents := 15000
    totalBids := 2
    bids := [tieBidLate, tieBidEarly] }

/-- The same auction with the two tied bids in the opposite insertion
order. -/
def tieAuctionB : AuctionState :=
  { tieAuctionA with bids := [tieBidEarly, tieBidLate] }

end FishAuction

namespace FishAuction

/-! ### Helper lemmas -/

theorem isAuctionActive_iff (now : ℤ) (auction : AuctionState) :
    isAuctionActive now auction = true ↔
      auction.status = AuctionStatus.«open» ∧
        auction.startTime ≤ now ∧ now ≤ auction.endTime := by
  simp [isAuctionActive]

/-! ### Claim theorems -/

/-- C7: `isAuctionActive` is true iff the status is open and the current time
lies in `[startTime, endTime]`; both boundary instants count as active, and a
closed auction is never active. -/
theorem isAuctionActive_spec :
    (∀ (now : ℤ) (auction : AuctionState),
       isAuctionActive now auction = true ↔
         auction.status = AuctionStatus.«open» ∧
           auction.startTime ≤ now ∧ now ≤ auction.endTime) ∧
    (∀ auction : AuctionState,
       auction.status = AuctionStatus.«open» →
       auction.startTime ≤ auction.endTime →
       isAuctionActive auction.startTime auction = true ∧
         isAuctionActive auction.endTime auction = true) ∧
    (∀ (now : ℤ) (auction : AuctionState),
       auction.status = AuctionStatus.closed →
       isAuctionActive now auction = false) := by
  refine ⟨fun now auction => isAuctionActive_iff now auction, ?_, ?_⟩
  · intro auction hopen hle
    exact ⟨(isAuctionActive_iff _ _).mpr ⟨hopen, le_refl _, hle⟩,
      (isAuctionActive_iff _ _).mpr ⟨hopen, hle, le_refl _⟩⟩
  · intro now auction hclosed
    simp [isAuctionActive, hclosed]

/-- Witness for C7 at the demo auction: both window boundaries are active. -/
theorem isAuctionActive_spec_witness :
    isAuctionActive demoAuction.startTime demoAuction = true ∧
      isAuctionActive demoAuction.endTime demoAuction = true :=
  isAuctionActive_spec.2.1 demoAuction (by rfl) (by decide)

/-- C2: for every non-negative integer gross amount, the settlement breakdown
has commission `round(gross * 0.06)` (= `calculateCommission`), labor fee 2500
(= `calculateLaborFee`), and net to supplier exactly
`gross - commission - laborFee`; `calculateSettlement 50000` yields
commission 3000, labor fee 2500, net 44500. -/
theorem calculateSettlement_spec :
    (∀ g : ℚ, 0 ≤ g → jsIsInteger g = true →
       (calculateSettlement g).grossAmount = g ∧
         (calculateSettlement g).commissionCents = calculateCommission g ∧
         (calculateSettlement g).laborFeeCents = calculateLaborFee ∧
         (calculateSettlement g).netToSupplierCents =
           g - calculateCommission g - calculateLaborFee) ∧
    calculateSettlement 50000 =
      { grossAmount := 50000, commissionCents := 3000, laborFeeCents := 2500,
        netToSupplierCents := 44500, commissionRate := 6/100, laborFeeFixed := 25 } := by
  constructor
  · intro g _ _
    exact ⟨rfl, rfl, rfl, rfl⟩
  · norm_num [calculateSettlement, jsRound]

/-- Witness for C2 at gross = 50000. -/
theorem calculateSettlement_spec_witness :
    (calculateSettlement 50000).netToSupplierCents =
      50000 - calculateCommission 50000 - calculateLaborFee :=
  (calculateSettlement_spec.1 50000 (by norm_num) (by simp [jsIsInteger])).2.2.2

/-- C8: converting an amount with at most two decimal places to centavos and
back recovers it exactly. -/
theorem money_roundTrip :
    ∀ (k : ℤ) (x : ℚ), x = (k : ℚ) / 100 →
      centavosToPesos (pesosTocentavos x) = x := by
  intro k x hx
  subst hx
  unfold centavosToPesos pesosTocentavos jsRound
  have h1 : (k : ℚ) / 100 * 100 = (k : ℚ) := by field_simp
  rw [h1, add_comm, Int.floor_add_int]
  norm_num

/-- Witness for C8 at x = 1234.56. -/
theorem money_roundTrip_witness :
    centavosToPesos (pesosTocentavos 1234.56) = 1234.56 :=
  money_roundTrip 123456 1234.56 (by norm_num)

end FishAuction

namespace FishAuction

theorem validateBid_none_iff (now : ℤ) (auction : AuctionState) (amt : ℚ) :
    validateBid now auction amt = none ↔
      isAuctionActive now auction = true ∧
        auction.minimumBidCents ≤ amt ∧
        auction.currentHighestBidCents + auction.bidIncrementCents ≤ amt ∧
        jsIsInteger amt = true ∧ 0 < amt := by
  unfold validateBid
  split_ifs with h1 h2 h3 h4
  · exact iff_of_false (by simp) (fun h => by simp [h.1] at h1)
  · exact iff_of_false (by simp) (fun h => absurd h2 (not_lt.mpr h.2.1))
  · exact iff_of_false (by simp) (fun h => absurd h3 (not_lt.mpr h.2.2.1))
  · refine iff_of_false (by simp) (fun h => ?_)
    rcases h4 with hf | hle
    · exact Bool.false_ne_true (hf ▸ h.2.2.2.1)
    · exact absurd h.2.2.2.2 (not_lt.mpr hle)
  · have hact : isAuctionActive now auction = true := by
      revert h1; cases isAuctionActive now auction <;> simp
    have h4' := not_or.mp h4
    have hint : jsIsInteger amt = true := by
      revert h4'; cases jsIsInteger amt <;> simp
    exact iff_of_true rfl
      ⟨hact, not_lt.mp h2, not_lt.mp h3, hint, not_le.mp (not_or.mp h4).2⟩

theorem validateBid_notActive (now : ℤ) (auction : AuctionState) (amt : ℚ)
    (h : isAuctionActive now auction = false) :
    validateBid now auction amt = some RejectionReason.notActive := by
  simp [validateBid, h]

theorem validateBid_belowMinimum (now : ℤ) (auction : AuctionState) (amt : ℚ)
    (h1 : isAuctionActive now auction = true)
    (h2 : amt < auction.minimumBidCents) :
    validateBid now auction amt =
      some (RejectionReason.belowMinimum auction.minimumBidCents) := by
  simp [validateBid, h1, h2]

theorem validateBid_belowIncrement (now : ℤ) (auction : AuctionState) (amt : ℚ)
    (h1 : isAuctionActive now auction = true)
    (h2 : auction.minimumBidCents ≤ amt)
    (h3 : amt < auction.currentHighestBidCents + auction.bidIncrementCents) :
    validateBid now auction amt =
      some (RejectionReason.belowIncrement
        (auction.currentHighestBidCents + auction.bidIncrementCents)) := by
  have h2' : ¬ amt < auction.minimumBidCents := not_lt.mpr h2
  simp [validateBid, h1, h2', h3]

theorem validateBid_invalidAmount (now : ℤ) (auction : AuctionState) (amt : ℚ)
    (h1 : isAuctionActive now auction = true)
    (h2 : auction.minimumBidCents ≤ amt)
    (h3 : auction.currentHighestBidCents + auction.bidIncrementCents ≤ amt)
    (h4 : jsIsInteger amt = false ∨ amt ≤ 0) :
    validateBid now auction amt = some RejectionReason.invalidAmount := by
  have h2' : ¬ amt < auction.minimumBidCents := not_lt.mpr h2
  have h3' : ¬ amt < auction.currentHighestBidCents + auction.bidIncrementCents :=
    not_lt.mpr h3
  simp [validateBid, h1, h2', h3', h4]

end FishAuction

namespace FishAuction

/-- C1: `validateBid` runs its four checks in source order (auction active,
amount at least the minimum bid, amount at least current highest plus
increment, amount a positive integer); the result is the first failing
check's rejection reason carrying the actionable amount, and success exactly
when all four pass. In the spec's scenario (minimum 10000, increment 500,
current highest 12000, active window), 12200 is rejected as below the
required minimum 12500 and 12500 is accepted. -/
theorem validateBid_spec :
    (∀ (now : ℤ) (auction : AuctionState) (amt : ℚ),
       validateBid now auction amt = none ↔
         isAuctionActive now auction = true ∧
           auction.minimumBidCents ≤ amt ∧
           auction.currentHighestBidCents + auction.bidIncrementCents ≤ amt ∧
           jsIsInteger amt = true ∧ 0 < amt) ∧
    (∀ (now : ℤ) (auction : AuctionState) (amt : ℚ),
       isAuctionActive now auction = false →
       validateBid now auction amt = some RejectionReason.notActive) ∧
    (∀ (now : ℤ) (auction : AuctionState) (amt : ℚ),
       isAuctionActive now auction = true →
       amt < auction.minimumBidCents →
       validateBid now auction amt =
         some (RejectionReason.belowMinimum auction.minimumBidCents)) ∧
    (∀ (now : ℤ) (auction : AuctionState) (amt : ℚ),
       isAuctionActive now auction = true →
       auction.minimumBidCents ≤ amt →
       amt < auction.currentHighestBidCents + auction.bidIncrementCents →
       validateBid now auction amt =
         some (RejectionReason.belowIncrement
           (auction.currentHighestBidCents + auction.bidIncrementCents))) ∧
    (∀ (now : ℤ) (auction : AuctionState) (amt : ℚ),
       isAuctionActive now auction = true →
       auction.minimumBidCents ≤ amt →
       auction.currentHighestBidCents + auction.bidIncrementCents ≤ amt →
       (jsIsInteger amt = false ∨ amt ≤ 0) →
       validateBid now auction amt = some RejectionReason.invalidAmount) ∧
    validateBid 50 demoAuction 12200 = some (RejectionReason.belowIncrement 12500) ∧
    validateBid 50 demoAuction 12500 = none := by
  refine ⟨validateBid_none_iff, validateBid_notActive, validateBid_belowMinimum,
    validateBid_belowIncrement, validateBid_invalidAmount, ?_, ?_⟩
  · norm_num [validateBid, isAuctionActive, demoAuction, jsIsInteger]
  · norm_num [validateBid, isAuctionActive, demoAuction, jsIsInteger]

/-- Witness for C1: a bid of 9000 on the demo auction is rejected as below
the 10000 minimum. -/
theorem validateBid_spec_witness :
    validateBid 50 demoAuction 9000 =
      some (RejectionReason.belowMinimum demoAuction.minimumBidCents) :=
  validateBid_spec.2.2.1 50 demoAuction 9000 (by decide) (by norm_num [demoAuction])

/-- C10: for an active auction with a positive minimum bid, any non-positive
amount is rejected as below-minimum, never as invalid amount; the
invalid-amount rejection is reachable only for non-integer amounts that
already meet both the minimum-bid and the increment thresholds. -/
theorem validateBid_invalidAmount_reachability :
    ∀ (now : ℤ) (auction : AuctionState) (amt : ℚ),
      isAuctionActive now auction = true →
      0 < auction.minimumBidCents →
      (amt ≤ 0 →
        validateBid now auction amt =
          some (RejectionReason.belowMinimum auction.minimumBidCents)) ∧
      (validateBid now auction amt = some RejectionReason.invalidAmount →
        jsIsInteger amt = false ∧
          auction.minimumBidCents ≤ amt ∧
          auction.currentHighestBidCents + auction.bidIncrementCents ≤ amt) := by
  intro now auction amt hact hmin
  constructor
  · intro hle
    exact validateBid_belowMinimum now auction amt hact (lt_of_le_of_lt hle hmin)
  · intro h
    unfold validateBid at h
    split_ifs at h with h1 h2 h3 h4
    any_goals simp at h
    exact ⟨h4.resolve_right (not_le.mpr (lt_of_lt_of_le hmin (not_lt.mp h2))),
      not_lt.mp h2, not_lt.mp h3⟩

/-- Witness for C10: a bid of -5 on the demo auction (active, minimum 10000)
is rejected as below-minimum, not as an invalid amount. -/
theorem validateBid_invalidAmount_reachability_witness :
    validateBid 50 demoAuction (-5) =
      some (RejectionReason.belowMinimum demoAuction.minimumBidCents) :=
  (validateBid_invalidAmount_reachability 50 demoAuction (-5) (by decide)
    (by norm_num [demoAuction])).1 (by norm_num)

end FishAuction

namespace FishAuction

/-- C5: closing an already-closed auction fails with the explicit
"Auction is already closed" error (closing is not an idempotent no-op);
closing an open auction succeeds with `getWinningBid` (possibly none), final
status closed, and the auction's bid count; an open auction with zero bids
closes successfully with no winner and bid count 0. -/
theorem closeAuction_spec :
    (∀ auction : AuctionState, auction.status = AuctionStatus.closed →
       closeAuction auction =
         { success := false, winningBid := none,
           finalStatus := AuctionStatus.closed, totalBids := auction.totalBids,
           error := some "Auction is already closed" }) ∧
    (∀ auction : AuctionState, auction.status = AuctionStatus.«open» →
       closeAuction auction =
         { success := true, winningBid := getWinningBid auction,
           finalStatus := AuctionStatus.closed, totalBids := auction.bids.length,
           error := none }) ∧
    (∀ auction : AuctionState, auction.status = AuctionStatus.«open» →
       auction.bids = [] →
       closeAuction auction =
         { success := true, winningBid := none,
           finalStatus := AuctionStatus.closed, totalBids := 0, error := none }) := by
  refine ⟨?_, ?_, ?_⟩
  · intro auction h
    simp [closeAuction, h]
  · intro auction h
    simp [closeAuction, h]
  · intro auction h hb
    simp [closeAuction, h, hb, getWinningBid]

/-- Witness for C5: closing the open, bid-less demo auction succeeds with no
winner. -/
theorem closeAuction_spec_witness :
    closeAuction demoAuction =
      { success := true, winningBid := none, finalStatus := AuctionStatus.closed,
        totalBids := 0, error := none } :=
  closeAuction_spec.2.2 demoAuction (by rfl) (by rfl)

/-- C4 counterexample: on `skewedAuction` (whose `totalBids` field is 5 while
its bid list is empty) a valid bid yields a state with `totalBids` 1, not the
old `totalBids` plus one (6): the source recomputes `totalBids` as the new
bid list's length, not by incrementing the field. -/
theorem addBidToAuction_totalBids_counterexample :
    addBidToAuction 50 skewedAuction skewedBid =
      Except.ok { skewedAuction with
        bids := [skewedBid]
        currentHighestBidCents := 100
        totalBids := 1 } ∧
    skewedAuction.totalBids + 1 = 6 := by
  constructor
  · have hv : validateBid 50 skewedAuction skewedBid.bidAmountCents = none := by
      norm_num [validateBid, isAuctionActive, skewedAuction, skewedBid, jsIsInteger]
    simp only [addBidToAuction, hv]
    norm_num [skewedAuction, skewedBid]
  · rfl

/-- C4 (amended): `addBidToAuction` fails exactly when `validateBid` rejects
the bid's amount, carrying that same rejection reason; on success it returns
the auction with the bid appended, `currentHighestBidCents` updated to
`max(old, bid.amount)`, all other fields unchanged, and `totalBids`
recomputed as the extended bid list's length (the old list's length plus one,
which equals old `totalBids` plus one exactly when `totalBids` matched the
old list's length). -/
theorem addBidToAuction_spec :
    ∀ (now : ℤ) (auction : AuctionState) (bid : Bid),
      (∀ r, addBidToAuction now auction bid = Except.error r ↔
        validateBid now auction bid.bidAmountCents = some r) ∧
      (validateBid now auction bid.bidAmountCents = none →
        addBidToAuction now auction bid =
          Except.ok { auction with
            bids := auction.bids ++ [bid]
            currentHighestBidCents :=
              max auction.currentHighestBidCents bid.bidAmountCents
            totalBids := auction.bids.length + 1 }) := by
  intro now auction bid
  constructor
  · intro r
    cases hv : validateBid now auction bid.bidAmountCents with
    | none => simp [addBidToAuction, hv]
    | some reason => simp [addBidToAuction, hv]
  · intro hv
    simp [addBidToAuction, hv]

/-- Witness for C4 (amended): adding the valid 12500 bid to the demo
auction. -/
theorem addBidToAuction_spec_witness :
    addBidToAuction 50 demoAuction demoBid =
      Except.ok { demoAuction with
        bids := demoAuction.bids ++ [demoBid]
        currentHighestBidCents :=
          max demoAuction.currentHighestBidCents demoBid.bidAmountCents
        totalBids := demoAuction.bids.length + 1 } :=
  (addBidToAuction_spec 50 demoAuction demoBid).2
    (by norm_num [validateBid, isAuctionActive, demoAuction, demoBid, jsIsInteger])

end FishAuction

namespace FishAuction

theorem maxBidAmount_append_single (b : Bid) (bs : List Bid) (x : Bid) :
    maxBidAmount ((b :: bs) ++ [x]) = max (maxBidAmount (b :: bs)) x.bidAmountCents := by
  show (bs ++ [x]).foldl (fun m c => max m c.bidAmountCents) b.bidAmountCents = _
  rw [List.foldl_append]
  rfl

/-- C6: a successful `addBidToAuction` preserves the `AuctionState`
invariants: if `currentHighestBidCents` equalled the maximum bid amount
among contained bids (0 when none) and `totalBids` equalled the bid list's
length, the returned state satisfies both invariants over the extended bid
list. -/
theorem addBidToAuction_preserves_invariants :
    ∀ (now : ℤ) (auction : AuctionState) (bid : Bid) (s : AuctionState),
      auction.currentHighestBidCents = maxBidAmount auction.bids →
      auction.totalBids = auction.bids.length →
      addBidToAuction now auction bid = Except.ok s →
      s.currentHighestBidCents = maxBidAmount s.bids ∧
        s.totalBids = s.bids.length := by
  intro now auction bid s hmax _ hadd
  cases hv : validateBid now auction bid.bidAmountCents with
  | some r =>
    rw [addBidToAuction, hv] at hadd
    exact absurd hadd (by simp)
  | none =>
    have hpos : 0 < bid.bidAmountCents :=
      ((validateBid_none_iff now auction bid.bidAmountCents).mp hv).2.2.2.2
    rw [addBidToAuction, hv] at hadd
    have hs := Except.ok.inj hadd
    subst hs
    refine ⟨?_, rfl⟩
    cases hb : auction.bids with
    | nil =>
      rw [hb] at hmax
      simp only [hb, List.nil_append]
      rw [hmax]
      show max (maxBidAmount []) bid.bidAmountCents = maxBidAmount [bid]
      have h1 : maxBidAmount [] = 0 := rfl
      have h2 : maxBidAmount [bid] = bid.bidAmountCents := rfl
      rw [h1, h2]
      exact max_eq_right (le_of_lt hpos)
    | cons b bs =>
      rw [hb] at hmax
      simp only [hb]
      rw [maxBidAmount_append_single, hmax]

/-- Witness for C6: adding a 100-centavo bid to the invariant-satisfying
`freshAuction` yields `freshResult`, which satisfies both invariants. -/
theorem addBidToAuction_preserves_invariants_witness :
    freshResult.currentHighestBidCents = maxBidAmount freshResult.bids ∧
      freshResult.totalBids = freshResult.bids.length :=
  addBidToAuction_preserves_invariants 50 freshAuction skewedBid freshResult
    (by simp [freshAuction, maxBidAmount])
    (by rfl)
    (by
      have hv : validateBid 50 freshAuction skewedBid.bidAmountCents = none := by
        norm_num [validateBid, isAuctionActive, freshAuction, skewedBid, jsIsInteger]
      simp only [addBidToAuction, hv]
      norm_num [freshAuction, freshResult, skewedBid])

end FishAuction

namespace FishAuction

theorem bidBefore_trans (a b c : Bid) (hab : bidBefore a b = true)
    (hbc : bidBefore b c = true) : bidBefore a c = true := by
  unfold bidBefore at hab hbc ⊢
  by_cases h1 : a.bidAmountCents = b.bidAmountCents
  · rw [if_pos h1] at hab
    by_cases h2 : b.bidAmountCents = c.bidAmountCents
    · rw [if_pos h2] at hbc
      rw [if_pos (h1.trans h2)]
      simp only [decide_eq_true_eq] at hab hbc ⊢
      omega
    · rw [if_neg h2] at hbc
      have h3 : ¬ a.bidAmountCents = c.bidAmountCents := by
        rw [h1]; exact h2
      rw [if_neg h3]
      simp only [decide_eq_true_eq] at hbc ⊢
      rw [← h1] at hbc
      exact hbc
  · rw [if_neg h1] at hab
    simp only [decide_eq_true_eq] at hab
    by_cases h2 : b.bidAmountCents = c.bidAmountCents
    · have h3 : ¬ a.bidAmountCents = c.bidAmountCents := by
        rw [← h2]; exact h1
      rw [if_neg h3]
      simp only [decide_eq_true_eq]
      rw [← h2]
      exact hab
    · rw [if_neg h2] at hbc
      simp only [decide_eq_true_eq] at hbc
      have hlt : c.bidAmountCents < a.bidAmountCents := lt_trans hbc hab
      rw [if_neg (ne_of_gt hlt)]
      simp only [decide_eq_true_eq]
      exact hlt

theorem bidBefore_total (a b : Bid) : (bidBefore a b || bidBefore b a) = true := by
  unfold bidBefore
  by_cases h : a.bidAmountCents = b.bidAmountCents
  · rw [if_pos h, if_pos h.symm]
    simp only [Bool.or_eq_true, decide_eq_true_eq]
    exact Int.le_total a.timestamp b.timestamp
  · rw [if_neg h, if_neg (fun e => h e.symm)]
    simp only [Bool.or_eq_true, decide_eq_true_eq]
    exact (lt_or_gt_of_ne h).elim (fun hl => Or.inr hl) (fun hg => Or.inl hg)

theorem head_mergeSort_bidBefore (l : List Bid) (w : Bid)
    (h : (l.mergeSort bidBefore).head? = some w) :
    w ∈ l ∧ ∀ b ∈ l, bidBefore w b = true := by
  have hperm := List.mergeSort_perm l bidBefore
  have hsorted := List.sorted_mergeSort bidBefore_trans bidBefore_total l
  cases hms : l.mergeSort bidBefore with
  | nil => rw [hms] at h; cases h
  | cons x xs =>
    rw [hms] at h hperm hsorted
    have hxw : x = w := by
      simpa using h
    subst hxw
    constructor
    · exact hperm.subset (List.mem_cons_self _ _)
    · intro b hb
      have hbmem : b ∈ x :: xs := hperm.symm.subset hb
      rcases List.mem_cons.mp hbmem with rfl | hbtail
      · have := bidBefore_total b b
        simpa using this
      · exact (List.pairwise_cons.mp hsorted).1 b hbtail

end FishAuction

namespace FishAuction

theorem getWinningBid_none_iff (auction : AuctionState) :
    getWinningBid auction = none ↔ auction.bids = [] := by
  unfold getWinningBid
  split_ifs with h
  · simp [List.length_eq_zero.mp h]
  · have hne : auction.bids ≠ [] := by
      intro e
      exact h (by simp [e])
    have hms : auction.bids.mergeSort bidBefore ≠ [] := by
      intro e
      have hperm := List.mergeSort_perm auction.bids bidBefore
      rw [e] at hperm
      exact hne (List.Perm.eq_nil hperm.symm)
    constructor
    · intro hh
      cases hcase : auction.bids.mergeSort bidBefore with
      | nil => exact absurd hcase hms
      | cons x xs =>
        rw [hcase] at hh
        cases hh
    · intro e
      exact absurd e hne

theorem getWinningBid_eq_of_unique (auction : AuctionState) (w : Bid)
    (hmem : w ∈ auction.bids)
    (huniq : ∀ b ∈ auction.bids, b ≠ w →
      b.bidAmountCents < w.bidAmountCents ∨
        (b.bidAmountCents = w.bidAmountCents ∧ w.timestamp < b.timestamp)) :
    getWinningBid auction = some w := by
  unfold getWinningBid
  have hne : auction.bids ≠ [] := by
    intro e
    rw [e] at hmem
    cases hmem
  rw [if_neg (by simpa using hne)]
  cases hcase : auction.bids.mergeSort bidBefore with
  | nil =>
    have hperm := List.mergeSort_perm auction.bids bidBefore
    rw [hcase] at hperm
    exact absurd (List.Perm.eq_nil hperm.symm) hne
  | cons x xs =>
    have hx := head_mergeSort_bidBefore auction.bids x (by rw [hcase]; rfl)
    by_cases hxw : x = w
    · rw [hxw]
      rfl
    · exfalso
      have hxmem := hx.1
      have hxbefore := hx.2 w hmem
      have hstrict := huniq x hxmem hxw
      unfold bidBefore at hxbefore
      by_cases he : x.bidAmountCents = w.bidAmountCents
      · rw [if_pos he] at hxbefore
        simp only [decide_eq_true_eq] at hxbefore
        rcases hstrict with hlt | ⟨_, hts⟩
        · exact absurd he (ne_of_lt hlt)
        · omega
      · rw [if_neg he] at hxbefore
        simp only [decide_eq_true_eq] at hxbefore
        rcases hstrict with hlt | ⟨he2, _⟩
        · linarith
        · exact he he2

/-- C3: `getWinningBid` returns none exactly when there are no bids;
otherwise it returns a contained bid of maximal amount whose timestamp is
no later than that of any other maximal bid; and whenever amounts or
timestamps determine a unique winner, every insertion order (permutation)
of the bid list yields that same winner. -/
theorem getWinningBid_spec :
    (∀ auction : AuctionState, getWinningBid auction = none ↔ auction.bids = []) ∧
    (∀ (auction : AuctionState) (w : Bid), getWinningBid auction = some w →
       w ∈ auction.bids ∧
         ∀ b ∈ auction.bids,
           b.bidAmountCents ≤ w.bidAmountCents ∧
             (b.bidAmountCents = w.bidAmountCents → w.timestamp ≤ b.timestamp)) ∧
    (∀ (a a' : AuctionState) (w : Bid),
       a.bids.Perm a'.bids →
       w ∈ a.bids →
       (∀ b ∈ a.bids, b ≠ w →
          b.bidAmountCents < w.bidAmountCents ∨
            (b.bidAmountCents = w.bidAmountCents ∧ w.timestamp < b.timestamp)) →
       getWinningBid a = some w ∧ getWinningBid a' = some w) := by
  refine ⟨getWinningBid_none_iff, ?_, ?_⟩
  · intro auction w h
    unfold getWinningBid at h
    split_ifs at h with hlen
    have hw := head_mergeSort_bidBefore auction.bids w h
    refine ⟨hw.1, fun b hb => ?_⟩
    have hwb := hw.2 b hb
    unfold bidBefore at hwb
    by_cases he : w.bidAmountCents = b.bidAmountCents
    · rw [if_pos he] at hwb
      simp only [decide_eq_true_eq] at hwb
      exact ⟨le_of_eq he.symm, fun _ => hwb⟩
    · rw [if_neg he] at hwb
      simp only [decide_eq_true_eq] at hwb
      exact ⟨le_of_lt hwb, fun hbe => absurd hbe.symm he⟩
  · intro a a' w hperm hmem huniq
    refine ⟨getWinningBid_eq_of_unique a w hmem huniq, ?_⟩
    refine getWinningBid_eq_of_unique a' w (hperm.subset hmem) ?_
    intro b hb hbw
    exact huniq b (hperm.symm.subset hb) hbw

/-- Witness for C3: two 15000 bids at times 1 and 2, in either insertion
order, both resolve to the earlier bid. -/
theorem getWinningBid_spec_witness :
    getWinningBid tieAuctionA = some tieBidEarly ∧
      getWinningBid tieAuctionB = some tieBidEarly :=
  getWinningBid_spec.2.2 tieAuctionA tieAuctionB tieBidEarly
    (List.Perm.swap tieBidEarly tieBidLate [])
    (List.mem_cons_of_mem _ (List.mem_cons_self _ _))
    (by
      intro b hb hbne
      rcases List.mem_cons.mp hb with h | h
      · subst h
        right
        exact ⟨rfl, by decide⟩
      · exact absurd (List.mem_singleton.mp h) hbne)

end FishAuction

namespace FishAuction

/-- C9: `parseMoneyString` strips the peso sign, commas and whitespace,
parses the remaining text as a decimal number, and returns
round(parsed value * 100) centavos; it fails, and fails with exactly the
"Invalid money format" error, if and only if the cleaned text does not
parse as a number. Concretely, "₱1,234.56" parses to 123456 centavos and
"abc" is rejected. -/
theorem parseMoneyString_spec :
    (∀ s : String, parseMoneyString s = Except.error "Invalid money format" ↔
       jsParseFloat (cleanMoney s) = none) ∧
    (∀ (s e : String), parseMoneyString s = Except.error e →
       e = "Invalid money format") ∧
    (∀ (s : String) (q : ℚ), jsParseFloat (cleanMoney s) = some q →
       parseMoneyString s = Except.ok (pesosTocentavos q)) ∧
    parseMoneyString "₱1,234.56" = Except.ok 123456 ∧
    parseMoneyString "abc" = Except.error "Invalid money format" := by
  refine ⟨?_, ?_, ?_, ?_, ?_⟩
  · intro s
    unfold parseMoneyString
    cases h : jsParseFloat (cleanMoney s) <;> simp
  · intro s e h
    unfold parseMoneyString at h
    cases hj : jsParseFloat (cleanMoney s) <;> rw [hj] at h
    · exact (Except.error.inj h).symm
    · simp at h
  · intro s q h
    unfold parseMoneyString
    rw [h]
  · have hq : jsParseFloat (cleanMoney "₱1,234.56") = some (123456/100 : ℚ) := by
      have h1 : cleanMoney "₱1,234.56" = "1234.56" := by decide
      have h2 : parseDecimalParts "1234.56" =
          some { negative := false, intPart := 1234, fracPart := 56,
                 fracLen := 2, exponent := 0 } := by decide
      rw [h1]
      simp only [jsParseFloat]
      rw [h2]
      norm_num [decimalValue]
    unfold parseMoneyString
    rw [hq]
    norm_num [pesosTocentavos, jsRound]
  · have hn : jsParseFloat (cleanMoney "abc") = none := by
      have h1 : cleanMoney "abc" = "abc" := by decide
      have h2 : parseDecimalParts "abc" = none := by decide
      rw [h1]
      simp only [jsParseFloat]
      rw [h2]
      rfl
    unfold parseMoneyString
    rw [hn]

/-- Witness for C9: the plain string "12" parses to `pesosTocentavos 12`
(= 1200 centavos). -/
theorem parseMoneyString_spec_witness :
    parseMoneyString "12" = Except.ok (pesosTocentavos 12) :=
  parseMoneyString_spec.2.2.1 "12" 12 (by
    have h1 : cleanMoney "12" = "12" := by decide
    have h2 : parseDecimalParts "12" =
        some { negative := false, intPart := 12, fracPart := 0,
               fracLen := 0, exponent := 0 } := by decide
    rw [h1]
    simp only [jsParseFloat]
    rw [h2]
    norm_num [decimalValue])

end FishAuction
